import Mathlib

/-
Verification of the FDA multi-agent runtime core against its specification.

The Python sources are shallowly embedded: strings are `List Char`, the
relational tables and the JSON message bus are Lean lists, Python's stable
`list.sort` is `List.insertionSort`, and rational numbers stand in for
floats.  Every definition mirrors one Python function and is named after it.
-/

set_option maxHeartbeats 1000000

namespace FDA

/-- Python strings are modelled as lists of characters. -/
abbrev Str := List Char

/-- Character list of a string literal. -/
def S (s : String) : Str := s.data

/-! ### Generic helpers mirroring Python string primitives -/

/-- Decision of Python `s.startswith(p)`: `isPre p s` decides whether `p` is a leading segment of `s`
(Python `s.startswith(p)`). -/
def isPre : Str → Str → Bool
  | [], _ => true
  | _ :: _, [] => false
  | a :: as, b :: bs => if a = b then isPre as bs else false

/-- Decision of Python substring test `needle in hay`: `occursIn needle hay` decides Python's substring test `needle in hay`. -/
def occursIn (needle : Str) : Str → Bool
  | [] => isPre needle []
  | c :: cs => isPre needle (c :: cs) || occursIn needle cs

/-- ASCII whitespace recognised by Python's `\s`, `str.split()` and
`str.strip()` (for the ASCII inputs this development works with). -/
def isPySpace (c : Char) : Bool :=
  c = ' ' || c = '\t' || c = '\n' || c = '\r' || c = '\x0b' || c = '\x0c'

/-- Remove trailing characters satisfying `p` (Python `rstrip`). -/
def stripEndR (p : Char → Bool) (s : Str) : Str :=
  (s.reverse.dropWhile p).reverse

/-- Remove leading and trailing characters satisfying `p`
(Python `strip`). -/
def stripEnds (p : Char → Bool) (s : Str) : Str :=
  stripEndR p (s.dropWhile p)

/-- Python `s.strip()` (whitespace on both ends). -/
def pyStrip (s : Str) : Str := stripEnds isPySpace s

/-- Python `s.rstrip()`. -/
def pyStripR (s : Str) : Str := stripEndR isPySpace s

/-- Python `s.lower()` (ASCII case folding, as in the sources' inputs). -/
def lowerStr (s : Str) : Str := s.map Char.toLower

/-- Split at every separator character satisfying `p`, keeping empty
segments — Python `s.split(sep)` for a one-character `sep`. -/
def splitOnP (p : Char → Bool) : Str → List Str
  | [] => [[]]
  | c :: cs =>
    if p c then [] :: splitOnP p cs
    else
      match splitOnP p cs with
      | [] => [[c]]
      | h :: t => (c :: h) :: t

/-- Python `s.split()` with no argument: split on whitespace runs,
dropping empty pieces. -/
def pySplitWs (s : Str) : List Str :=
  (splitOnP isPySpace s).filter (· ≠ [])

/-- Worker for `collapseRuns`; the flag records whether the previous
character belonged to a run being collapsed. -/
def collapseGo (p : Char → Bool) (r : Char) : Bool → Str → Str
  | _, [] => []
  | inRun, c :: cs =>
    if p c then
      if inRun then collapseGo p r true cs else r :: collapseGo p r true cs
    else c :: collapseGo p r false cs

/-- Replace every maximal nonempty run of characters satisfying `p` by the
single character `r` — the effect of `re.sub("[p]+", r, s)`. -/
def collapseRuns (p : Char → Bool) (r : Char) (s : Str) : Str :=
  collapseGo p r false s

/-! ### Journal writer: `_slugify` and `_generate_filename` (writer.py) -/

/-- Character class `[\s_]` used by `_slugify`'s first substitution. -/
def isSlugSep (c : Char) : Bool := isPySpace c || c = '_'

/-- Characters kept by `_slugify` (the complement of `[^a-z0-9-]`). -/
def isSlugChar (c : Char) : Bool :=
  ('a' ≤ c && c ≤ 'z') || ('0' ≤ c && c ≤ '9') || c = '-'

/-- Embedding of `JournalWriter._slugify`: lowercase, collapse `[\s_]+` runs to `-`,
drop characters outside `[a-z0-9-]`, collapse `-+` runs, strip hyphens,
with `"untitled"` as the fallback for an empty result. -/
def slugify (text : Str) : Str :=
  if stripEnds (· = '-')
      (collapseRuns (· = '-') '-'
        ((collapseRuns isSlugSep '-' (lowerStr text)).filter isSlugChar)) = []
  then S "untitled"
  else stripEnds (· = '-')
      (collapseRuns (· = '-') '-'
        ((collapseRuns isSlugSep '-' (lowerStr text)).filter isSlugChar))

/-- The slug part of `JournalWriter._generate_filename`: the slug is
truncated to 50 characters (with trailing hyphens stripped) when longer. -/
def filenameSlug (summary : Str) : Str :=
  if 50 < (slugify summary).length
  then stripEndR (· = '-') ((slugify summary).take 50)
  else slugify summary

lemma mem_dropWhile {p : Char → Bool} {l : Str} {c : Char}
    (h : c ∈ l.dropWhile p) : c ∈ l := by
  induction l with
  | nil => simpa [List.dropWhile] using h
  | cons x xs ih =>
    rw [List.dropWhile] at h
    by_cases hx : p x = true
    · simp only [hx] at h
      exact List.mem_cons_of_mem _ (ih h)
    · simp only [Bool.not_eq_true] at hx
      simp only [hx] at h
      exact h

lemma dropWhile_length_le (p : Char → Bool) (l : Str) :
    (l.dropWhile p).length ≤ l.length := by
  induction l with
  | nil => simp [List.dropWhile]
  | cons x xs ih =>
    rw [List.dropWhile]
    by_cases hx : p x = true
    · simp only [hx]
      exact le_trans ih (Nat.le_succ _)
    · simp only [Bool.not_eq_true] at hx
      simp [hx]

lemma mem_collapseGo {p : Char → Bool} {r : Char} {b : Bool} {l : Str} {c : Char}
    (h : c ∈ collapseGo p r b l) : c = r ∨ c ∈ l := by
  induction l generalizing b with
  | nil => simp [collapseGo] at h
  | cons x xs ih =>
    rw [collapseGo] at h
    by_cases hx : p x = true
    · rw [if_pos hx] at h
      by_cases hb : b = true
      · rw [if_pos hb] at h
        rcases ih h with h | h
        · exact Or.inl h
        · exact Or.inr (List.mem_cons_of_mem _ h)
      · simp only [Bool.not_eq_true] at hb
        rw [hb, if_neg (by simp)] at h
        rcases List.mem_cons.1 h with h | h
        · exact Or.inl h
        · rcases ih h with h | h
          · exact Or.inl h
          · exact Or.inr (List.mem_cons_of_mem _ h)
    · rw [if_neg hx] at h
      rcases List.mem_cons.1 h with h | h
      · exact Or.inr (h ▸ List.mem_cons_self _ _)
      · rcases ih h with h | h
        · exact Or.inl h
        · exact Or.inr (List.mem_cons_of_mem _ h)

lemma mem_stripEndR {p : Char → Bool} {l : Str} {c : Char}
    (h : c ∈ stripEndR p l) : c ∈ l := by
  unfold stripEndR at h
  exact List.mem_reverse.1 (mem_dropWhile (List.mem_reverse.1 h))

lemma mem_stripEnds {p : Char → Bool} {l : Str} {c : Char}
    (h : c ∈ stripEnds p l) : c ∈ l :=
  mem_dropWhile (mem_stripEndR h)

lemma mem_slugify {text : Str} {c : Char} (h : c ∈ slugify text) :
    isSlugChar c = true := by
  unfold slugify at h
  split at h
  · rw [show S "untitled" = ['u', 'n', 't', 'i', 't', 'l', 'e', 'd'] from rfl] at h
    simp only [List.mem_cons, List.not_mem_nil, or_false] at h
    rcases h with rfl | rfl | rfl | rfl | rfl | rfl | rfl | rfl <;> decide
  · rcases mem_collapseGo (mem_stripEnds h) with h | h
    · simp [h, isSlugChar]
    · exact (List.mem_filter.1 h).2

lemma length_stripEndR_le (p : Char → Bool) (l : Str) :
    (stripEndR p l).length ≤ l.length := by
  unfold stripEndR
  simpa using dropWhile_length_le _ l.reverse

/-- C9.  The slug pipeline: the two concrete examples from the spec, the
50-character bound after truncation, and the output character set. -/
theorem slug_function_spec :
    slugify (S "Meeting Prep: 2024 Q1  review!!") = S "meeting-prep-2024-q1-review" ∧
    slugify (S "   ") = S "untitled" ∧
    (∀ s : Str, (filenameSlug s).length ≤ 50) ∧
    (∀ (s : Str) (c : Char), c ∈ filenameSlug s → isSlugChar c = true) := by
  refine ⟨by decide, by decide, ?_, ?_⟩
  · intro s
    unfold filenameSlug
    split
    · exact le_trans (length_stripEndR_le _ _) (by simpa using (slugify s).length_take_le 50)
    · omega
  · intro s c h
    unfold filenameSlug at h
    split at h
    · exact mem_slugify (List.mem_of_mem_take (mem_stripEndR h))
    · exact mem_slugify h

/-- Lexicographic `≤` on character lists: Python's string comparison. -/
def strLeB : Str → Str → Bool
  | [], _ => true
  | _ :: _, [] => false
  | a :: as, b :: bs => if a < b then true else if a = b then strLeB as bs else false

/-- Python's `s ≤ t` on strings. -/
def strLe (a b : String) : Prop := strLeB a.data b.data = true

instance (a b : String) : Decidable (strLe a b) :=
  inferInstanceAs (Decidable (strLeB a.data b.data = true))

lemma strLeB_total : ∀ a b : Str, strLeB a b = true ∨ strLeB b a = true
  | [], _ => Or.inl rfl
  | _ :: _, [] => Or.inr rfl
  | a :: as, b :: bs => by
    rcases lt_trichotomy a b with h | h | h
    · exact Or.inl (by simp [strLeB, h])
    · subst h
      rcases strLeB_total as bs with h | h
      · exact Or.inl (by simp [strLeB, h])
      · exact Or.inr (by simp [strLeB, h])
    · exact Or.inr (by simp [strLeB, h])

lemma strLeB_trans : ∀ {a b c : Str},
    strLeB a b = true → strLeB b c = true → strLeB a c = true
  | [], _, _, _, _ => rfl
  | _ :: _, [], _, hab, _ => by simp [strLeB] at hab
  | _ :: _, _ :: _, [], _, hbc => by simp [strLeB] at hbc
  | a :: as, b :: bs, c :: cs, hab, hbc => by
    by_cases h1 : a < b
    · by_cases h2 : b < c
      · simp [strLeB, lt_trans h1 h2]
      · by_cases h3 : b = c
        · subst h3; simp [strLeB, h1]
        · simp [strLeB, h2, h3] at hbc
    · by_cases h2 : a = b
      · subst h2
        simp only [strLeB, if_neg h1, if_pos rfl] at hab
        by_cases h3 : a < c
        · simp [strLeB, h3]
        · by_cases h4 : a = c
          · subst h4
            simp only [strLeB, if_neg h3, if_pos rfl] at hbc ⊢
            exact strLeB_trans hab hbc
          · simp [strLeB, h3, h4] at hbc
      · simp [strLeB, h1, h2] at hab

/-- Closed instance of `slug_function_spec`'s character-set part at a
concrete input. -/
theorem slug_function_spec_witness :
    'm' ∈ filenameSlug (S "Meeting") ∧ isSlugChar 'm' = true :=
  ⟨by decide, slug_function_spec.2.2.2 (S "Meeting") 'm' (by decide)⟩

/-! ### Message bus (comms/message_bus.py) -/

/-- A message on the bus, with the fields `MessageBus.send` writes. -/
structure Message where
  id : String
  fromAgent : String
  toAgent : String
  type : String
  subject : String
  body : String
  priority : String
  timestamp : String
  read : Bool
  threadId : String
  replyTo : Option String
deriving DecidableEq

/-- The table `priority_order = {"high": 0, "medium": 1, "low": 2}` with
`.get(priority, 1)` for anything else. -/
def priorityOrder (p : String) : ℕ :=
  if p = "high" then 0 else if p = "medium" then 1 else if p = "low" then 2 else 1

/-- The sort key used by `get_pending`: priority rank ascending, then
timestamp ascending (ISO strings compare lexicographically). -/
def pendingLe (a b : Message) : Prop :=
  priorityOrder a.priority < priorityOrder b.priority ∨
    (priorityOrder a.priority = priorityOrder b.priority ∧ strLe a.timestamp b.timestamp)

instance : DecidableRel pendingLe := fun a b =>
  inferInstanceAs (Decidable (priorityOrder a.priority < priorityOrder b.priority ∨
    (priorityOrder a.priority = priorityOrder b.priority ∧ strLe a.timestamp b.timestamp)))

instance : IsTotal Message pendingLe := by
  constructor
  intro a b
  rcases lt_trichotomy (priorityOrder a.priority) (priorityOrder b.priority) with h | h | h
  · exact Or.inl (Or.inl h)
  · rcases strLeB_total a.timestamp.data b.timestamp.data with ht | ht
    · exact Or.inl (Or.inr ⟨h, ht⟩)
    · exact Or.inr (Or.inr ⟨h.symm, ht⟩)
  · exact Or.inr (Or.inl h)

instance : IsTrans Message pendingLe := by
  constructor
  intro a b c hab hbc
  rcases hab with h | ⟨he, ht⟩
  · rcases hbc with h' | ⟨he', _⟩
    · exact Or.inl (h.trans h')
    · exact Or.inl (he' ▸ h)
  · rcases hbc with h' | ⟨he', ht'⟩
    · exact Or.inl (he ▸ h')
    · exact Or.inr ⟨he.trans he', strLeB_trans ht ht'⟩

/-- Embedding of `MessageBus.get_pending`: the unread messages addressed to the agent,
stably sorted by `(priority rank, timestamp)` (Python's `list.sort` is
stable, as is `List.insertionSort`). -/
def get_pending (bus : List Message) (agentName : String) : List Message :=
  List.insertionSort pendingLe
    (bus.filter (fun m => m.toAgent = agentName ∧ m.read = false))

/-- Timestamp order used by `get_thread`'s final sort. -/
def tsLe (a b : Message) : Prop := strLe a.timestamp b.timestamp

instance : DecidableRel tsLe := fun a b =>
  inferInstanceAs (Decidable (strLe a.timestamp b.timestamp))

instance : IsTotal Message tsLe :=
  ⟨fun a b => strLeB_total a.timestamp.data b.timestamp.data⟩

instance : IsTrans Message tsLe := ⟨fun _ _ _ h h' => strLeB_trans h h'⟩

/-- The non-generated arguments of `MessageBus.send`. -/
structure SendReq where
  fromAgent : String
  toAgent : String
  type : String
  subject : String
  body : String
  priority : String
deriving DecidableEq

/-- The message record `MessageBus.send` appends for the given generated
id/timestamp, resolved thread id and `reply_to`. -/
def sentMsg (msgId ts : String) (r : SendReq) (tid : String)
    (replyTo : Option String) : Message :=
  { id := msgId, fromAgent := r.fromAgent, toAgent := r.toAgent, type := r.type,
    subject := r.subject, body := r.body, priority := r.priority,
    timestamp := ts, read := false, threadId := tid, replyTo := replyTo }

/-- Embedding of `MessageBus.send` with the generated uuid and timestamp made explicit:
the thread id is the id of the referenced message's thread when `reply_to`
resolves, else the fresh message id; the message is appended to the bus. -/
def send (bus : List Message) (msgId ts : String) (r : SendReq)
    (replyTo : Option String) : List Message :=
  let tid :=
    match replyTo with
    | none => msgId
    | some rep =>
      match bus.find? (fun m => m.id == rep) with
      | some m => m.threadId
      | none => msgId
  bus ++ [sentMsg msgId ts r tid replyTo]

/-- Embedding of `MessageBus.get_thread`: resolve the message's thread id, then all
messages of that thread sorted by timestamp; `[]` when the id is unknown. -/
def get_thread (bus : List Message) (msgId : String) : List Message :=
  match bus.find? (fun m => m.id == msgId) with
  | none => []
  | some m =>
    List.insertionSort tsLe (bus.filter (fun x => x.threadId == m.threadId))

lemma find?_append_of_none {α : Type} {p : α → Bool} {l1 l2 : List α}
    (h : ∀ a ∈ l1, p a = false) : (l1 ++ l2).find? p = l2.find? p := by
  induction l1 with
  | nil => simp
  | cons x xs ih =>
    have hx := h x (List.mem_cons_self _ _)
    simp only [List.cons_append, List.find?, hx]
    exact ih fun a ha => h a (List.mem_cons_of_mem _ ha)

lemma filter_append_of_none {α : Type} {p : α → Bool} {l1 l2 : List α}
    (h : ∀ a ∈ l1, p a = false) : (l1 ++ l2).filter p = l2.filter p := by
  rw [List.filter_append, List.filter_eq_nil_iff.2 (by simpa using h), List.nil_append]

/-- Example messages for the priority-ordering scenario: A, B, C, D sent in
that order to the same recipient. -/
def msgA : Message :=
  { id := "a", fromAgent := "librarian", toAgent := "fda", type := "discovery",
    subject := "A", body := "", priority := "medium", timestamp := "2024-01-01T10:00:01",
    read := false, threadId := "a", replyTo := none }

def msgB : Message :=
  { msgA with
    id := "b", subject := "B", priority := "high",
    timestamp := "2024-01-01T10:00:02", threadId := "b" }

def msgC : Message :=
  { msgA with
    id := "c", subject := "C", priority := "medium",
    timestamp := "2024-01-01T10:00:03", threadId := "c" }

def msgD : Message :=
  { msgA with
    id := "d", subject := "D", priority := "low",
    timestamp := "2024-01-01T10:00:04", threadId := "d" }

/-- C2.  `get_pending` returns exactly the unread messages addressed to the
agent, sorted by priority rank then timestamp; on the concrete scenario
{A:medium, B:high, C:medium, D:low} it yields [B, A, C, D]. -/
theorem get_pending_spec :
    (∀ (bus : List Message) (agent : String),
        (get_pending bus agent).Perm
          (bus.filter (fun m => m.toAgent = agent ∧ m.read = false)) ∧
        List.Sorted pendingLe (get_pending bus agent)) ∧
    get_pending [msgA, msgB, msgC, msgD] "fda" = [msgB, msgA, msgC, msgD] := by
  refine ⟨fun bus agent => ⟨List.perm_insertionSort _ _, List.sorted_insertionSort _ _⟩, ?_⟩
  decide

lemma get_thread_unknown (bus : List Message) (x : String)
    (h : ∀ m ∈ bus, m.id ≠ x) : get_thread bus x = [] := by
  rw [get_thread]
  have : bus.find? (fun m => m.id == x) = none := by
    rw [List.find?_eq_none]
    intro m hm
    simpa using h m hm
  rw [this]

/-- C3.  The three-message reply chain.  Starting from any bus whose
messages use none of the three fresh ids (and none of whose threads is named
`id0`), sending `m0`, then `m1` replying to `m0`, then `m2` replying to
`m1`, gives all three messages thread id `id0`, and `get_thread` on `m2`'s
id returns exactly `[m0, m1, m2]` in timestamp order; `get_thread` of an id
matching no message returns `[]`. -/
theorem thread_integrity_spec (bus0 : List Message)
    (id0 id1 id2 ts0 ts1 ts2 : String) (r0 r1 r2 : SendReq)
    (h0 : ∀ m ∈ bus0, m.id ≠ id0) (h1 : ∀ m ∈ bus0, m.id ≠ id1)
    (h2 : ∀ m ∈ bus0, m.id ≠ id2)
    (htid : ∀ m ∈ bus0, m.threadId ≠ id0)
    (hid01 : id0 ≠ id1) (hid02 : id0 ≠ id2) (hid12 : id1 ≠ id2)
    (hts01 : strLe ts0 ts1) (hts12 : strLe ts1 ts2) :
    get_thread
        (send (send (send bus0 id0 ts0 r0 none) id1 ts1 r1 (some id0))
          id2 ts2 r2 (some id1)) id2 =
      [sentMsg id0 ts0 r0 id0 none, sentMsg id1 ts1 r1 id0 (some id0),
        sentMsg id2 ts2 r2 id0 (some id1)] ∧
    (∀ m ∈ get_thread
        (send (send (send bus0 id0 ts0 r0 none) id1 ts1 r1 (some id0))
          id2 ts2 r2 (some id1)) id2, m.threadId = id0) ∧
    (∀ (bus : List Message) (x : String),
        (∀ m ∈ bus, m.id ≠ x) → get_thread bus x = []) := by
  have e1 : send bus0 id0 ts0 r0 none = bus0 ++ [sentMsg id0 ts0 r0 id0 none] := rfl
  have e2 : send (bus0 ++ [sentMsg id0 ts0 r0 id0 none]) id1 ts1 r1 (some id0) =
      bus0 ++ [sentMsg id0 ts0 r0 id0 none, sentMsg id1 ts1 r1 id0 (some id0)] := by
    rw [send]
    rw [find?_append_of_none (by intro a ha; simpa using h0 a ha)]
    simp [sentMsg]
  have e3 : send (bus0 ++ [sentMsg id0 ts0 r0 id0 none,
        sentMsg id1 ts1 r1 id0 (some id0)]) id2 ts2 r2 (some id1) =
      bus0 ++ [sentMsg id0 ts0 r0 id0 none, sentMsg id1 ts1 r1 id0 (some id0),
        sentMsg id2 ts2 r2 id0 (some id1)] := by
    rw [send]
    rw [find?_append_of_none (by intro a ha; simpa using h1 a ha)]
    simp [sentMsg, hid01]
  rw [e1, e2, e3]
  have hfind : (bus0 ++ [sentMsg id0 ts0 r0 id0 none,
      sentMsg id1 ts1 r1 id0 (some id0),
      sentMsg id2 ts2 r2 id0 (some id1)]).find? (fun m => m.id == id2) =
      some (sentMsg id2 ts2 r2 id0 (some id1)) := by
    rw [find?_append_of_none (by intro a ha; simpa using h2 a ha)]
    simp [sentMsg, hid02, hid12]
  have hfilter : (bus0 ++ [sentMsg id0 ts0 r0 id0 none,
      sentMsg id1 ts1 r1 id0 (some id0),
      sentMsg id2 ts2 r2 id0 (some id1)]).filter (fun x => x.threadId == id0) =
      [sentMsg id0 ts0 r0 id0 none, sentMsg id1 ts1 r1 id0 (some id0),
        sentMsg id2 ts2 r2 id0 (some id1)] := by
    rw [filter_append_of_none (by intro a ha; simpa using htid a ha)]
    simp [sentMsg]
  have hsorted : List.Sorted tsLe
      [sentMsg id0 ts0 r0 id0 none, sentMsg id1 ts1 r1 id0 (some id0),
        sentMsg id2 ts2 r2 id0 (some id1)] := by
    rw [List.sorted_cons, List.sorted_cons]
    refine ⟨?_, ?_, List.sorted_singleton _⟩
    · intro b hb
      simp only [List.mem_cons, List.not_mem_nil, or_false] at hb
      rcases hb with rfl | rfl
      · exact hts01
      · exact strLeB_trans hts01 hts12
    · intro b hb
      simp only [List.mem_cons, List.not_mem_nil, or_false] at hb
      rcases hb with rfl
      exact hts12
  have hth : (sentMsg id2 ts2 r2 id0 (some id1)).threadId = id0 := rfl
  simp only [get_thread, hfind, hth]
  rw [hfilter, hsorted.insertionSort_eq]
  refine ⟨rfl, ?_, get_thread_unknown⟩
  intro m hm
  simp only [List.mem_cons, List.not_mem_nil, or_false] at hm
  rcases hm with rfl | rfl | rfl <;> rfl

/-- Closed instance of `thread_integrity_spec` on an empty bus with ids
`a`, `b`, `c` and increasing timestamps. -/
theorem thread_integrity_witness :
    get_thread
        (send (send (send ([] : List Message) "a" "1"
            ⟨"fda", "librarian", "search_request", "s", "", "medium"⟩ none)
          "b" "2" ⟨"librarian", "fda", "search_result", "r", "", "medium"⟩ (some "a"))
          "c" "3" ⟨"fda", "librarian", "question", "q", "", "medium"⟩ (some "b")) "c" =
      [sentMsg "a" "1" ⟨"fda", "librarian", "search_request", "s", "", "medium"⟩ "a" none,
        sentMsg "b" "2" ⟨"librarian", "fda", "search_result", "r", "", "medium"⟩ "a" (some "a"),
        sentMsg "c" "3" ⟨"fda", "librarian", "question", "q", "", "medium"⟩ "a" (some "b")] :=
  (thread_integrity_spec [] "a" "b" "c" "1" "2" "3" _ _ _
    (by simp) (by simp) (by simp) (by simp)
    (by decide) (by decide) (by decide) (by decide) (by decide)).1

/-! ### Executor: dangerous-command gate (executor_agent.py) -/

/-- Python `s.endswith(p)`. -/
def pyEndsWith (p s : Str) : Bool := isPre p.reverse s.reverse

/-- The list `ExecutorAgent.DANGEROUS_PATTERNS`. -/
def DANGEROUS_PATTERNS : List String :=
  ["rm -rf /", "rm -rf /*", "mkfs", ":()\x7b:|:&\x7d;:", "dd if=/dev/zero", "> /dev/sda"]

/-- Embedding of `ExecutorAgent._is_dangerous_command`: substring match of any
dangerous pattern against the lowercased, stripped command, plus the
`rm`/`-rf`-on-root heuristic. -/
def is_dangerous_command (command : String) : Bool :=
  DANGEROUS_PATTERNS.any (fun p => occursIn p.data (pyStrip (lowerStr command.data))) ||
    (occursIn (S "rm ") (pyStrip (lowerStr command.data)) &&
      occursIn (S "-rf") (pyStrip (lowerStr command.data)) &&
      (occursIn (S " /") (pyStrip (lowerStr command.data)) ||
        pyEndsWith (S " /") (pyStrip (lowerStr command.data))))

/-- The result dictionary built by `ExecutorAgent.run_command`; the blocked
branch writes no `cwd` key, hence the `Option`. -/
structure CmdResult where
  command : String
  cwd : Option String
  stdout : String
  stderr : String
  returnCode : Int
  success : Bool
  error : Option String
  timestamp : String
deriving DecidableEq

/-- Outcome of the `subprocess.run` call, abstracted: normal completion,
`TimeoutExpired`, or any other exception. -/
inductive SpawnOutcome where
  | completed (stdout stderr : String) (returnCode : Int)
  | timedOut
  | failed (msg : String)

/-- Embedding of `ExecutorAgent.run_command` with the subprocess boundary abstracted as
`spawn` and the wall clock as `ts`.  The second component records whether
the subprocess branch was reached at all. -/
def run_command (spawn : String → String → SpawnOutcome)
    (command : String) (cwd : Option String) (workingDirectory : String)
    (timeoutSec : ℕ) (ts : String) : CmdResult × Bool :=
  if is_dangerous_command command then
    ({ command := command, cwd := none, stdout := "",
       stderr := "Command blocked: potentially dangerous operation",
       returnCode := -1, success := false, error := some "Blocked for safety",
       timestamp := ts }, false)
  else
    let workingDir := cwd.getD workingDirectory
    match spawn command workingDir with
    | .completed out err rc =>
      ({ command := command, cwd := some workingDir, stdout := out.take 10000,
         stderr := err.take 5000, returnCode := rc, success := rc = 0,
         error := none, timestamp := ts }, true)
    | .timedOut =>
      ({ command := command, cwd := some workingDir, stdout := "",
         stderr := "Command timed out after " ++ toString timeoutSec ++ " seconds",
         returnCode := -1, success := false, error := some "timeout",
         timestamp := ts }, true)
    | .failed msg =>
      ({ command := command, cwd := some workingDir, stdout := "",
         stderr := msg, returnCode := -1, success := false, error := some msg,
         timestamp := ts }, true)

/-- C7.  A command containing any dangerous pattern is rejected with the
fixed blocked result (`success = false`, `return_code = -1`, the fixed
stderr and error strings) and the subprocess branch is never reached. -/
theorem dangerous_command_rejection
    (spawn : String → String → SpawnOutcome) (command : String)
    (cwd : Option String) (workingDirectory : String) (timeoutSec : ℕ) (ts : String)
    (h : ∃ p ∈ DANGEROUS_PATTERNS,
      occursIn p.data (pyStrip (lowerStr command.data)) = true) :
    run_command spawn command cwd workingDirectory timeoutSec ts =
      ({ command := command, cwd := none, stdout := "",
         stderr := "Command blocked: potentially dangerous operation",
         returnCode := -1, success := false, error := some "Blocked for safety",
         timestamp := ts }, false) := by
  have hd : is_dangerous_command command = true := by
    unfold is_dangerous_command
    rcases h with ⟨p, hp, hocc⟩
    exact Bool.or_eq_true_iff.2 (Or.inl (List.any_eq_true.2 ⟨p, hp, hocc⟩))
  rw [run_command, if_pos hd]

/-- Closed instance of `dangerous_command_rejection` at `rm -rf /`. -/
theorem dangerous_command_rejection_witness :
    run_command (fun _ _ => SpawnOutcome.completed "" "" 0) "rm -rf /" none "/" 60 "t" =
      ({ command := "rm -rf /", cwd := none, stdout := "",
         stderr := "Command blocked: potentially dangerous operation",
         returnCode := -1, success := false, error := some "Blocked for safety",
         timestamp := "t" }, false) :=
  dangerous_command_rejection _ "rm -rf /" none "/" 60 "t"
    ⟨"rm -rf /", by decide, by decide⟩

/-! ### State store: code routes (state/project_state.py) and the
Librarian's routing system (librarian_agent.py) -/

/-- A row of the `code_routes` table.  Generated ids `route_<uuid4[:8]>`
are modelled by an insertion counter (fresh, as a uuid is with
overwhelming probability). -/
structure CodeRoute where
  id : ℕ
  file_path : String
  route_type : String
  name : String
  line_number : Option Int
  signature : Option String
  docstring : Option String
  keywords : Option String
  indexed_at : String
deriving DecidableEq

/-- A row of the `file_index` table (the fields the routing loop reads). -/
structure FileEntry where
  path : String
  extension : String
  indexed_at : String
deriving DecidableEq

/-- A route dictionary produced by `_analyze_code_file`. -/
structure RouteData where
  route_type : String
  name : String
  line : Option Int
  signature : Option String
  docstring : Option String
  keywords : Option (List String)
deriving DecidableEq

/-- The code-routes table plus the id generator. -/
structure RouterState where
  routes : List CodeRoute
  nextId : ℕ
deriving DecidableEq

/-- Python `json.dumps` on a list of strings (the analyzers' keywords are
identifier fragments, so no JSON escaping arises). -/
def jsonDumpsStrList (l : List String) : String :=
  "[" ++ String.intercalate ", " (l.map (fun s => "\"" ++ s ++ "\"")) ++ "]"

/-- Embedding of `ProjectState.add_code_route`: `INSERT OR REPLACE` keyed on the fresh
id (so the filter below never drops anything), docstring truncated to 500
characters, keywords JSON-encoded when the list is nonempty. -/
def add_code_route (st : RouterState) (filePath : String) (d : RouteData)
    (ts : String) : RouterState :=
  let row : CodeRoute :=
    { id := st.nextId, file_path := filePath, route_type := d.route_type,
      name := d.name, line_number := d.line, signature := d.signature,
      docstring := d.docstring.map (fun s => s.take 500),
      keywords := match d.keywords with
        | some l => if l = [] then none else some (jsonDumpsStrList l)
        | none => none,
      indexed_at := ts }
  { routes := st.routes.filter (fun r => r.id ≠ st.nextId) ++ [row],
    nextId := st.nextId + 1 }

/-- SQLite `ORDER BY line_number` with SQLite's NULLs-first convention. -/
def optIntLeB : Option Int → Option Int → Bool
  | none, _ => true
  | some _, none => false
  | some x, some y => decide (x ≤ y)

def lineLe (a b : CodeRoute) : Prop := optIntLeB a.line_number b.line_number = true

instance : DecidableRel lineLe := fun a b =>
  inferInstanceAs (Decidable (optIntLeB a.line_number b.line_number = true))

instance : IsTotal CodeRoute lineLe := by
  constructor
  intro a b
  unfold lineLe
  rcases a.line_number with _ | x <;> rcases b.line_number with _ | y
  · exact Or.inl rfl
  · exact Or.inl rfl
  · exact Or.inr rfl
  · rcases le_total x y with h | h
    · exact Or.inl (by simpa [optIntLeB] using h)
    · exact Or.inr (by simpa [optIntLeB] using h)

instance : IsTrans CodeRoute lineLe := by
  constructor
  intro a b c hab hbc
  unfold lineLe at hab hbc ⊢
  rcases ha : a.line_number with _ | x <;>
    rcases hb : b.line_number with _ | y <;>
      rcases hc : c.line_number with _ | z <;>
        simp_all [optIntLeB]
  all_goals omega

/-- Embedding of `ProjectState.get_routes_for_file`: rows for the path, ordered by
line number. -/
def get_routes_for_file (st : RouterState) (filePath : String) : List CodeRoute :=
  List.insertionSort lineLe (st.routes.filter (fun r => r.file_path = filePath))

/-- SQLite `v LIKE '%query%'` (case-insensitive for ASCII; NULL never
matches; the queries at issue contain no `%`/`_` wildcards). -/
def likeContains (q : String) : Option String → Bool
  | none => false
  | some s => occursIn (lowerStr q.data) (lowerStr s.data)

/-- The WHERE clause of `ProjectState.search_code_routes`. -/
def routeMatches (q : String) (rt : Option String) (r : CodeRoute) : Bool :=
  (likeContains q (some r.name) || likeContains q r.keywords ||
    likeContains q r.docstring) &&
  (match rt with
   | none => true
   | some t => r.route_type = t)

/-- SQLite `ORDER BY name` (BINARY BINARY collation = code-point order). -/
def nameLe (a b : CodeRoute) : Prop := strLe a.name b.name

instance : DecidableRel nameLe := fun a b =>
  inferInstanceAs (Decidable (strLe a.name b.name))

instance : IsTotal CodeRoute nameLe := ⟨fun a b => strLeB_total a.name.data b.name.data⟩

instance : IsTrans CodeRoute nameLe := ⟨fun _ _ _ h h' => strLeB_trans h h'⟩

/-- Embedding of `ProjectState.search_code_routes`: WHERE, then `ORDER BY name`, then
`LIMIT`. -/
def search_code_routes (st : RouterState) (query : String)
    (routeType : Option String) (limit : ℕ) : List CodeRoute :=
  (List.insertionSort nameLe (st.routes.filter (routeMatches query routeType))).take limit

/-- Embedding of `LibrarianAgent.search_routes`: delegation to the store with limit 20. -/
def search_routes (st : RouterState) (query : String)
    (routeType : Option String) : List CodeRoute :=
  search_code_routes st query routeType 20

/-- SQLite `ORDER BY indexed_at DESC` on the file index. -/
def fileIdxGe (a b : FileEntry) : Prop := strLe b.indexed_at a.indexed_at

instance : DecidableRel fileIdxGe := fun a b =>
  inferInstanceAs (Decidable (strLe b.indexed_at a.indexed_at))

instance : IsTotal FileEntry fileIdxGe :=
  ⟨fun a b => strLeB_total b.indexed_at.data a.indexed_at.data⟩

instance : IsTrans FileEntry fileIdxGe := ⟨fun _ _ _ h h' => strLeB_trans h' h⟩

/-- Embedding of `ProjectState.search_file_index(extension=ext, limit=...)`: rows of
that extension, newest first, limited. -/
def search_file_index_by_extension (idx : List FileEntry) (ext : String)
    (limit : ℕ) : List FileEntry :=
  (List.insertionSort fileIdxGe (idx.filter (fun f => f.extension = ext))).take limit

def code_extensions : List String := ["py", "js", "ts", "go", "java"]

/-- Embedding of `LibrarianAgent.build_routing_system`, with `_analyze_code_file`
abstracted as `analyze` (it reads the file from disk) and the indexing
timestamp as `ts`.  For each of the five code extensions, every indexed
file of that extension (newest first, capped at 500) has each extracted
route inserted via `add_code_route` — note: no route is ever cleared
first. -/
def build_routing_system (analyze : String → String → List RouteData)
    (idx : List FileEntry) (ts : String) (st : RouterState) : RouterState :=
  code_extensions.foldl
    (fun st ext =>
      (search_file_index_by_extension idx ext 500).foldl
        (fun st f =>
          (analyze f.path ext).foldl
            (fun st d => add_code_route st f.path d ts) st)
        st)
    st

/-- A file index holding one Python file. -/
def oneFileIndex : List FileEntry := [{ path := "/p/a.py", extension := "py", indexed_at := "1" }]

/-- An analyzer extracting one function route from that file. -/
def oneAnalyze : String → String → List RouteData := fun path ext =>
  if path = "/p/a.py" && ext = "py" then
    [{ route_type := "function", name := "f", line := some 1,
       signature := some "f()", docstring := none, keywords := some ["f"] }]
  else []

/-- The `(file_path, name, route_type, line_number)` view of a route. -/
def routeTuple (r : CodeRoute) : String × String × String × Option Int :=
  (r.file_path, r.name, r.route_type, r.line_number)

/-- C1.  `build_routing_system` does NOT clear a file's routes before
re-inserting them: on a tree with one Python file defining one function,
the first run indexes one route, and the second run on the unchanged tree
duplicates it, so `get_routes_for_file` differs between the runs. -/
theorem build_routing_system_not_idempotent :
    (get_routes_for_file
        (build_routing_system oneAnalyze oneFileIndex "t1" ⟨[], 0⟩)
        "/p/a.py").map routeTuple = [("/p/a.py", "f", "function", some 1)] ∧
    (get_routes_for_file
        (build_routing_system oneAnalyze oneFileIndex "t2"
          (build_routing_system oneAnalyze oneFileIndex "t1" ⟨[], 0⟩))
        "/p/a.py").map routeTuple =
      [("/p/a.py", "f", "function", some 1), ("/p/a.py", "f", "function", some 1)] ∧
    get_routes_for_file
        (build_routing_system oneAnalyze oneFileIndex "t2"
          (build_routing_system oneAnalyze oneFileIndex "t1" ⟨[], 0⟩))
        "/p/a.py" ≠
      get_routes_for_file
        (build_routing_system oneAnalyze oneFileIndex "t1" ⟨[], 0⟩)
        "/p/a.py" := by
  refine ⟨by decide, by decide, by decide⟩

/-- Search on the routes table as §4.5 of the spec words it: matching
routes ordered newest-indexed-first, up to the limit of 20.  (Spec-side
definition, for comparison with `search_routes` from the source.) -/
def searchRoutesNewestFirst (st : RouterState) (query : String)
    (routeType : Option String) : List CodeRoute :=
  (List.insertionSort (fun a b => strLe b.indexed_at a.indexed_at)
    (st.routes.filter (routeMatches query routeType))).take 20

instance : DecidableRel (fun (a b : CodeRoute) => strLe b.indexed_at a.indexed_at) :=
  fun a b => inferInstanceAs (Decidable (strLe b.indexed_at a.indexed_at))

/-- Two routes whose name order disagrees with their indexing order. -/
def routeOlderA : CodeRoute :=
  { id := 0, file_path := "/p/a.py", route_type := "function", name := "a",
    line_number := some 1, signature := some "a()", docstring := none,
    keywords := none, indexed_at := "2024-01-01T00:00:01" }

def routeNewerB : CodeRoute :=
  { id := 1, file_path := "/p/a.py", route_type := "function", name := "b",
    line_number := some 5, signature := some "b()", docstring := none,
    keywords := none, indexed_at := "2024-01-02T00:00:01" }

/-- C8, counterexample.  `search_routes` orders by name ascending, not
newest-indexed-first: with an older route named `a` and a newer one named
`b`, the code returns `[a-route, b-route]` while newest-first would be
`[b-route, a-route]`. -/
theorem search_routes_not_newest_first :
    search_routes ⟨[routeNewerB, routeOlderA], 2⟩ "" none =
      [routeOlderA, routeNewerB] ∧
    searchRoutesNewestFirst ⟨[routeNewerB, routeOlderA], 2⟩ "" none =
      [routeNewerB, routeOlderA] ∧
    search_routes ⟨[routeNewerB, routeOlderA], 2⟩ "" none ≠
      searchRoutesNewestFirst ⟨[routeNewerB, routeOlderA], 2⟩ "" none := by
  refine ⟨by decide, by decide, by decide⟩

/-- C8, amended.  `search_routes(query, route_type?)` delegates to the
store's `search_code_routes` with limit 20, and the result is the matching
routes (name/keywords/docstring substring match, optional type filter)
ordered by name ascending, at most 20 of them. -/
theorem search_routes_spec (st : RouterState) (query : String)
    (routeType : Option String) :
    search_routes st query routeType = search_code_routes st query routeType 20 ∧
    List.Sorted nameLe (search_routes st query routeType) ∧
    (search_routes st query routeType).length ≤ 20 ∧
    ∀ r ∈ search_routes st query routeType,
      routeMatches query routeType r = true ∧ r ∈ st.routes := by
  refine ⟨rfl, ?_, ?_, ?_⟩
  · exact ((List.sorted_insertionSort nameLe _).sublist (List.take_sublist _ _))
  · simpa [search_routes, search_code_routes] using
      le_trans (List.length_take_le _ _) le_rfl
  · intro r hr
    have hr' : r ∈ List.insertionSort nameLe
        (st.routes.filter (routeMatches query routeType)) :=
      (List.take_subset _ _) hr
    have hr'' : r ∈ st.routes.filter (routeMatches query routeType) :=
      (List.perm_insertionSort nameLe _).subset hr'
    exact ⟨(List.mem_filter.1 hr'').2, (List.mem_filter.1 hr'').1⟩

/-- Closed instance of `search_routes_spec`'s membership part. -/
theorem search_routes_spec_witness :
    routeMatches "" none routeOlderA = true ∧
    routeOlderA ∈ [routeNewerB, routeOlderA] :=
  (search_routes_spec ⟨[routeNewerB, routeOlderA], 2⟩ "" none).2.2.2
    routeOlderA (by decide)

/-! ### Librarian `files` search branch (librarian_agent.py) -/

/-- The keyword parameters accepted by `ProjectState.search_file_index`
(its signature: `extension`, `tags`, `path_pattern`, `limit`). -/
def search_file_index_params : List String := ["extension", "tags", "path_pattern", "limit"]

/-- The keyword arguments `_handle_search_request` passes in its `files`
branch: `search_file_index(query=query, limit=20)`. -/
def files_branch_kwargs : List String := ["query", "limit"]

/-- Python keyword-argument binding: a call raises `TypeError` when a
supplied keyword is not among the callee's parameters. -/
def kwargsAccepted (params supplied : List String) : Bool :=
  supplied.all (fun k => params.contains k)

/-- The body of a `*_result` reply built by `MessageBus.send_result`. -/
structure ResultBody where
  success : Bool
  result : Option (List FileEntry)
  error : Option String
deriving DecidableEq

/-- The Librarian's handling of a `search_request` whose parsed body has
`search_type = "files"`: the branch calls `search_file_index` with the
`query` keyword; the raised `TypeError` escapes `_handle_search_request`
and is converted by `_handle_message`'s handler into a failed
`search_result`. -/
def files_search_reply (idx : List FileEntry) (query : String) : ResultBody :=
  if kwargsAccepted search_file_index_params files_branch_kwargs then
    { success := true,
      result := some (search_file_index_by_extension idx query 20),
      error := none }
  else
    { success := false, result := none,
      error := some "search_file_index() got an unexpected keyword argument 'query'" }

/-- C10.  Every `files`-type search request produces a failed reply and
never any file matches, because the handler passes the `query` keyword
that `search_file_index` does not accept. -/
theorem files_search_always_fails (idx : List FileEntry) (query : String) :
    kwargsAccepted search_file_index_params files_branch_kwargs = false ∧
    (files_search_reply idx query).success = false ∧
    (files_search_reply idx query).result = none := by
  refine ⟨by decide, ?_, ?_⟩ <;>
    simp [files_search_reply, show kwargsAccepted search_file_index_params
      files_branch_kwargs = false by decide]

/-! ### Journal retrieval (journal/retriever.py, journal/index.py).
Floats are modelled as rationals; `math.exp` is an abstract function
argument (monotone where a claim needs it); ISO `created_at` strings are
abstracted to their parse result in epoch seconds, `none` for a missing or
invalid timestamp. -/

/-- A journal index record. -/
structure JEntry where
  filename : String
  author : String
  tags : List String
  summary : String
  createdAt : Option ℚ
  relevance_decay : String
deriving DecidableEq

/-- Python `" ".join(l)`. -/
def joinSpace (l : List String) : String := String.intercalate " " l

/-- The keyword clause of `JournalIndex.search`: whole-query substring
match on summary or joined tags, else any space-split word in
`f"{summary_lower} {tags_text}"`. -/
def kwMatches (keywords : String) (e : JEntry) : Bool :=
  occursIn (lowerStr keywords.data) (lowerStr e.summary.data) ||
  occursIn (lowerStr keywords.data) (lowerStr (joinSpace e.tags).data) ||
  (pySplitWs (lowerStr keywords.data)).any
    (fun w => occursIn w (lowerStr e.summary.data ++ (' ' :: lowerStr (joinSpace e.tags).data)))

/-- Embedding of `JournalIndex.search(tags, keywords)`: tag filter is any-overlap; the
keyword filter applies only when `keywords` is nonempty. -/
def index_search (entries : List JEntry) (tags : List String)
    (keywords : String) : List JEntry :=
  entries.filter (fun e =>
    (decide (tags = []) || e.tags.any (fun t => tags.contains t)) &&
    (decide (keywords = "") || kwMatches keywords e))

/-- Constant `RELEVANCE_WEIGHT = 0.6` (config.py). -/
def RELEVANCE_WEIGHT : ℚ := 6 / 10

/-- Constant `RECENCY_WEIGHT = 0.4` (config.py). -/
def RECENCY_WEIGHT : ℚ := 4 / 10

/-- Lookup `DECAY_RATES.get(setting, DECAY_RATES["medium"])` (config.py). -/
def decayRate (s : String) : ℚ :=
  if s = "fast" then 1 / 10 else if s = "slow" then 1 / 100 else 1 / 20

/-- Embedding of `JournalRetriever._calculate_relevance_score`.  `entry_tags` is a
Python set, modelled as the deduplicated tag list (the set's iteration
order in the joined tag text is fixed to first-occurrence order). -/
def calc_relevance_score (e : JEntry) (queryTags : List String)
    (queryText : String) : ℚ :=
  let entryTags := e.tags.dedup
  let tagPart : ℚ × ℚ :=
    if queryTags ≠ [] then
      let qset := queryTags.dedup
      ((1 / 2 : ℚ) *
        (((entryTags.filter (fun t => qset.contains t)).length : ℚ) / (qset.length : ℚ)),
        1 / 2)
    else (0, 0)
  let kwPart : ℚ × ℚ :=
    if queryText ≠ "" then
      let qwords := pySplitWs (lowerStr queryText.data)
      if qwords ≠ [] then
        ((1 / 2 : ℚ) *
          max (((qwords.countP (fun w => occursIn w (lowerStr e.summary.data))) : ℚ)
              / (qwords.length : ℚ))
            (((qwords.countP (fun w =>
                occursIn w (lowerStr (joinSpace entryTags).data))) : ℚ)
              / (qwords.length : ℚ)),
          1 / 2)
      else (0, 1 / 2)
    else (0, 0)
  if tagPart.2 + kwPart.2 > 0 then (tagPart.1 + kwPart.1) / (tagPart.2 + kwPart.2)
  else 1 / 2

/-- Embedding of `JournalRetriever._calculate_recency_score`: exponential decay of the
age in days, clamped to `[0, 1]`; missing/invalid timestamp gives `0.5`. -/
def calc_recency_score (expQ : ℚ → ℚ) (now : ℚ) (e : JEntry) : ℚ :=
  match e.createdAt with
  | none => 1 / 2
  | some t =>
    max 0 (min 1 (expQ (-(decayRate e.relevance_decay * ((now - t) / (24 * 3600))))))

/-- Python `round(q, 4)` (nearest with ties up; the ties-to-even float
detail does not matter here since both sides of every statement use the
same function). -/
def round4 (q : ℚ) : ℚ := (⌊q * 10000 + 1 / 2⌋ : ℚ) / 10000

/-- A scored entry as built in `JournalRetriever.retrieve` (the original
metadata plus the three rounded scores). -/
structure ScoredEntry where
  entry : JEntry
  relevance_score : ℚ
  recency_score : ℚ
  combined_score : ℚ
deriving DecidableEq

/-- The scoring step of `retrieve` for one candidate. -/
def scoreEntry (expQ : ℚ → ℚ) (now : ℚ) (queryTags : List String)
    (queryText : String) (e : JEntry) : ScoredEntry :=
  { entry := e,
    relevance_score := round4 (calc_relevance_score e queryTags queryText),
    recency_score := round4 (calc_recency_score expQ now e),
    combined_score := round4 (RELEVANCE_WEIGHT * calc_relevance_score e queryTags queryText +
      RECENCY_WEIGHT * calc_recency_score expQ now e) }

/-- Sort key of `retrieve`: combined score descending (`reverse=True` on a
stable sort). -/
def combinedGe (a b : ScoredEntry) : Prop := b.combined_score ≤ a.combined_score

instance : DecidableRel combinedGe := fun a b =>
  inferInstanceAs (Decidable (b.combined_score ≤ a.combined_score))

instance : IsTotal ScoredEntry combinedGe :=
  ⟨fun a b => (le_total b.combined_score a.combined_score).imp id id⟩

instance : IsTrans ScoredEntry combinedGe := ⟨fun _ _ _ h h' => le_trans h' h⟩

/-- Embedding of `JournalRetriever.retrieve`: candidates from `index.search` when any
query is given (all entries otherwise), scored, sorted by combined score
descending, truncated to `top_n`. -/
def retrieve (expQ : ℚ → ℚ) (now : ℚ) (entries : List JEntry)
    (queryTags : List String) (queryText : String) (topN : ℕ) : List ScoredEntry :=
  let candidates :=
    if queryTags ≠ [] ∨ queryText ≠ "" then index_search entries queryTags queryText
    else entries
  if candidates = [] then []
  else
    (List.insertionSort combinedGe
      (candidates.map (scoreEntry expQ now queryTags queryText))).take topN

/-- C5.  Every retrieved entry's reported `combined_score` is
`round4(0.6·relevance + 0.4·recency)` of its own relevance and recency
scores, and with no tags and no query text the relevance is the `0.5`
baseline. -/
theorem retrieval_weighting (expQ : ℚ → ℚ) (now : ℚ) (entries : List JEntry)
    (queryTags : List String) (queryText : String) (topN : ℕ) :
    (∀ s ∈ retrieve expQ now entries queryTags queryText topN,
      s.relevance_score = round4 (calc_relevance_score s.entry queryTags queryText) ∧
      s.recency_score = round4 (calc_recency_score expQ now s.entry) ∧
      s.combined_score = round4
        (RELEVANCE_WEIGHT * calc_relevance_score s.entry queryTags queryText +
          RECENCY_WEIGHT * calc_recency_score expQ now s.entry)) ∧
    (∀ e : JEntry, calc_relevance_score e [] "" = 1 / 2) := by
  constructor
  · intro s hs
    unfold retrieve at hs
    set cand := if queryTags ≠ [] ∨ queryText ≠ "" then
        index_search entries queryTags queryText
      else entries with hc
    by_cases h : cand = []
    · rw [if_pos h] at hs
      simp at hs
    · rw [if_neg h] at hs
      have h1 := (List.take_subset _ _) hs
      have h2 := (List.perm_insertionSort combinedGe _).subset h1
      rcases List.mem_map.1 h2 with ⟨e, _, rfl⟩
      exact ⟨rfl, rfl, rfl⟩
  · intro e
    simp [calc_relevance_score]

/-- The concrete entry used to instantiate `retrieval_weighting`. -/
def entry0 : JEntry :=
  { filename := "2024-01-01_00-00-00_sum.md", author := "agent", tags := ["ops"],
    summary := "sum", createdAt := none, relevance_decay := "medium" }

lemma retrieve_entry0 :
    retrieve (fun _ => 1) 0 [entry0] [] "" 5 =
      [scoreEntry (fun _ => 1) 0 [] "" entry0] := rfl

/-- Closed instance of `retrieval_weighting` on a one-entry index with no
query. -/
theorem retrieval_weighting_witness :
    scoreEntry (fun _ => 1) 0 [] "" entry0 ∈
        retrieve (fun _ => 1) 0 [entry0] [] "" 5 ∧
    (scoreEntry (fun _ => 1) 0 [] "" entry0).combined_score = round4
        (RELEVANCE_WEIGHT * calc_relevance_score entry0 [] "" +
          RECENCY_WEIGHT * calc_recency_score (fun _ => 1) 0 entry0) :=
  ⟨retrieve_entry0 ▸ List.mem_cons_self _ _,
    ((retrieval_weighting (fun _ => 1) 0 [entry0] [] "" 5).1 _
      (retrieve_entry0 ▸ List.mem_cons_self _ _)).2.2⟩

lemma round4_mono {a b : ℚ} (h : a ≤ b) : round4 a ≤ round4 b := by
  unfold round4
  have : (⌊a * 10000 + 1 / 2⌋ : ℚ) ≤ (⌊b * 10000 + 1 / 2⌋ : ℚ) := by
    exact_mod_cast Int.floor_le_floor (by nlinarith)
  linarith

lemma decayRate_pos (s : String) : 0 < decayRate s := by
  unfold decayRate
  split_ifs <;> norm_num

/-- C6.  Retrieval is monotone in recency: with the decay rates
fast = 0.1, medium = 0.05, slow = 0.01, an otherwise identical entry with
an older timestamp gets a recency score, and hence a combined score, no
greater than the newer one (relevance does not depend on the timestamp),
and `retrieve`'s output is sorted by combined score descending, so the
older entry's reported rank is never better than its score allows. -/
theorem retrieval_recency_monotone :
    decayRate "fast" = 1 / 10 ∧ decayRate "medium" = 1 / 20 ∧
    decayRate "slow" = 1 / 100 ∧
    (∀ (expQ : ℚ → ℚ), Monotone expQ →
      ∀ (e : JEntry) (now t1 t2 : ℚ), t1 ≤ t2 →
        calc_recency_score expQ now { e with createdAt := some t1 } ≤
          calc_recency_score expQ now { e with createdAt := some t2 } ∧
        ∀ (queryTags : List String) (queryText : String),
          round4 (RELEVANCE_WEIGHT * calc_relevance_score e queryTags queryText +
              RECENCY_WEIGHT *
                calc_recency_score expQ now { e with createdAt := some t1 }) ≤
            round4 (RELEVANCE_WEIGHT * calc_relevance_score e queryTags queryText +
              RECENCY_WEIGHT *
                calc_recency_score expQ now { e with createdAt := some t2 })) ∧
    (∀ (expQ : ℚ → ℚ) (now : ℚ) (entries : List JEntry)
        (queryTags : List String) (queryText : String) (topN : ℕ),
      List.Sorted combinedGe (retrieve expQ now entries queryTags queryText topN)) := by
  refine ⟨rfl, rfl, rfl, ?_, ?_⟩
  · intro expQ hexp e now t1 t2 ht
    have hrate : (0 : ℚ) < decayRate e.relevance_decay := decayRate_pos _
    have h1 : (now - t2) / (24 * 3600) ≤ (now - t1) / (24 * 3600) :=
      (div_le_div_right (by norm_num)).2 (by linarith)
    have h2 : decayRate e.relevance_decay * ((now - t2) / (24 * 3600)) ≤
        decayRate e.relevance_decay * ((now - t1) / (24 * 3600)) :=
      mul_le_mul_of_nonneg_left h1 (le_of_lt hrate)
    have harg : -(decayRate e.relevance_decay * ((now - t1) / (24 * 3600))) ≤
        -(decayRate e.relevance_decay * ((now - t2) / (24 * 3600))) :=
      neg_le_neg h2
    have hrec : calc_recency_score expQ now { e with createdAt := some t1 } ≤
        calc_recency_score expQ now { e with createdAt := some t2 } := by
      show max 0 (min 1 (expQ _)) ≤ max 0 (min 1 (expQ _))
      exact max_le_max le_rfl (min_le_min le_rfl (hexp harg))
    refine ⟨hrec, ?_⟩
    intro queryTags queryText
    apply round4_mono
    have hw : (0 : ℚ) ≤ RECENCY_WEIGHT := by norm_num [RECENCY_WEIGHT]
    have := mul_le_mul_of_nonneg_left hrec hw
    linarith
  · intro expQ now entries queryTags queryText topN
    unfold retrieve
    set cand := if queryTags ≠ [] ∨ queryText ≠ "" then
        index_search entries queryTags queryText
      else entries with hc
    by_cases h : cand = []
    · rw [if_pos h]
      exact List.sorted_nil
    · rw [if_neg h]
      exact (List.sorted_insertionSort combinedGe _).sublist (List.take_sublist _ _)

/-- Closed instance of `retrieval_recency_monotone` at the identity
(monotone) decay function, one day of age difference. -/
theorem retrieval_recency_monotone_witness :
    calc_recency_score (fun x => x) 0 { entry0 with createdAt := some (-86400) } ≤
      calc_recency_score (fun x => x) 0 { entry0 with createdAt := some 0 } :=
  (retrieval_recency_monotone.2.2.2.1 (fun x => x) monotone_id entry0 0 (-86400) 0
    (by norm_num)).1

/-! ### Journal writer round trip (journal/writer.py):
`_create_frontmatter` + `write_entry` on the write side,
`read_entry` + `_parse_frontmatter` on the read side. -/

/-- First-occurrence split: `findSep sep s` is `none` when the (nonempty)
separator does not occur in `s`, else the parts before and after its first
occurrence. -/
def findSep (sep : Str) : Str → Option (Str × Str)
  | [] => none
  | c :: cs =>
    if isPre sep (c :: cs) then some ([], (c :: cs).drop sep.length)
    else (findSep sep cs).map (fun p => (c :: p.1, p.2))

/-- Python `s.split(sep, 2)` for a nonempty separator. -/
def pySplit2 (sep s : Str) : List Str :=
  match findSep sep s with
  | none => [s]
  | some (a, r) =>
    match findSep sep r with
    | none => [a, r]
    | some (b, r2) => [a, b, r2]

/-- A parsed metadata value: a scalar or a tag list. -/
inductive MVal where
  | str (v : Str)
  | list (vs : List Str)
deriving DecidableEq

/-- Python dict assignment `metadata[k] = v` on an association list. -/
def setMeta (m : List (Str × MVal)) (k : Str) (v : MVal) : List (Str × MVal) :=
  if m.any (fun p => p.1 = k) then m.map (fun p => if p.1 = k then (k, v) else p)
  else m ++ [(k, v)]

/-- Python dict lookup `metadata.get(k)`. -/
def getMeta (m : List (Str × MVal)) (k : Str) : Option MVal :=
  (m.find? (fun p => p.1 = k)).map (fun p => p.2)

/-- Python `line.partition(":")` restricted to the pieces the parser uses
(the text before and after the first colon). -/
def pyPartitionColon : Str → Str × Str
  | [] => ([], [])
  | c :: cs =>
    if c = ':' then ([], cs)
    else ((pyPartitionColon cs).1.cons c, (pyPartitionColon cs).2)

/-- The loop state of `_parse_frontmatter`: the metadata built so far, the
pending list key, the pending list items.  Python's falsy `""` current key
behaves exactly like `None` (it is only read under truthiness checks), so
both are `none` here. -/
structure PState where
  metadata : List (Str × MVal)
  currentKey : Option Str
  currentList : List Str
deriving DecidableEq

/-- Python `if value.startswith('"') and value.endswith('"')`. -/
def startsEndsQuote (v : Str) : Bool :=
  isPre ['"'] v && isPre ['"'] v.reverse

/-- The save-pending-list step at the top of each non-list-item
iteration of `_parse_frontmatter`'s loop. -/
def saveList (st : PState) : PState :=
  match st.currentKey with
  | some k =>
    if st.currentList ≠ [] then
      ⟨setMeta st.metadata k (MVal.list st.currentList), none, []⟩
    else st
  | none => st

/-- Python `value[1:-1]` applied when the value is quote-wrapped. -/
def stripQuotes (value : Str) : Str :=
  if startsEndsQuote value then (value.drop 1).dropLast else value

/-- One iteration of `_parse_frontmatter`'s line loop. -/
def processLine (st : PState) (line0 : Str) : PState :=
  if isPre (S "  - ") (pyStripR line0) then
    match st.currentKey with
    | some _ =>
      { st with currentList := st.currentList ++ [pyStrip ((pyStripR line0).drop 4)] }
    | none => st
  else
    if (pyStripR line0).contains ':' && !(isPre (S " ") (pyStripR line0)) then
      if pyStrip (pyPartitionColon (pyStripR line0)).2 ≠ [] then
        { saveList st with
          metadata := setMeta (saveList st).metadata
            (pyStrip (pyPartitionColon (pyStripR line0)).1)
            (MVal.str (stripQuotes (pyStrip (pyPartitionColon (pyStripR line0)).2))) }
      else
        { saveList st with
          currentKey :=
            if pyStrip (pyPartitionColon (pyStripR line0)).1 = [] then none
            else some (pyStrip (pyPartitionColon (pyStripR line0)).1) }
    else saveList st

/-- Embedding of `JournalWriter._parse_frontmatter`. -/
def parse_frontmatter (fm : Str) : List (Str × MVal) :=
  let st := (splitOnP (fun c => c = '\n') fm).foldl processLine ⟨[], none, []⟩
  match st.currentKey with
  | some k => if st.currentList ≠ [] then setMeta st.metadata k (MVal.list st.currentList)
              else st.metadata
  | none => st.metadata

/-- Embedding of `JournalWriter.read_entry` on the file's text: split off
the frontmatter between the first two `---` fences and parse it; strip the
body. -/
def read_entry (content : Str) : List (Str × MVal) × Str :=
  if isPre (S "---") content then
    match pySplit2 (S "---") content with
    | [_, fm, body] => (parse_frontmatter (pyStrip fm), pyStrip body)
    | _ => ([], content)
  else ([], content)

/-- The `tags_yaml` block of `_create_frontmatter`:
`"\n".join(f"  - {tag}" for tag in tags)`. -/
def tagsYaml : List Str → Str
  | [] => []
  | [t] => S "  - " ++ t
  | t :: t' :: rest => S "  - " ++ t ++ '\n' :: tagsYaml (t' :: rest)

/-- Embedding of `JournalWriter._create_frontmatter` (the f-string split at
its holes). -/
def create_frontmatter (author : Str) (tags : List Str) (summary decay ts : Str) : Str :=
  S "---\n" ++ S "title: \"" ++ summary ++ S "\"\n" ++
  S "author: " ++ author ++ S "\n" ++
  S "created_at: " ++ ts ++ S "\n" ++
  S "relevance_decay: " ++ decay ++ S "\n" ++
  S "tags:\n" ++ tagsYaml tags ++ S "\n---\n"

/-- Embedding of `JournalWriter.write_entry`'s file content:
`f"{frontmatter}\n{content}"`. -/
def write_entry_content (author : Str) (tags : List Str)
    (summary content decay ts : Str) : Str :=
  create_frontmatter author tags summary decay ts ++ S "\n" ++ content

/-- C4, counterexample.  The round trip fails as universally stated: a
summary containing `---` breaks the fence split, so the parsed title is
`"a` instead of `a---b`. -/
theorem journal_round_trip_counterexample :
    getMeta (read_entry (write_entry_content (S "alice") [S "ops"]
        (S "a---b") (S "body") (S "medium") (S "2024-01-01T00:00:00"))).1
      (S "title") ≠ some (MVal.str (S "a---b")) := by
  decide

/-! Auxiliary lemmas for the round-trip proof. -/

lemma isPre_self_append : ∀ (p r : Str), isPre p (p ++ r) = true
  | [], _ => rfl
  | a :: as, r => by simp [isPre, isPre_self_append as r]

lemma isPre_append_of_length_le :
    ∀ {p t : Str} (r : Str), p.length ≤ t.length → isPre p (t ++ r) = isPre p t
  | [], _, _, _ => rfl
  | _ :: _, [], _, h => by simp at h
  | a :: as, b :: bs, r, h => by
    simp only [List.cons_append, isPre]
    split
    · exact isPre_append_of_length_le r (by simpa using h)
    · rfl

lemma findSep_marker : ∀ (xs : Str) {sep ys : Str}, sep ≠ [] →
    (∀ t, (∃ u, u ++ t = xs) → t ≠ [] → isPre sep (t ++ (sep ++ ys)) = false) →
    findSep sep (xs ++ (sep ++ ys)) = some (xs, ys)
  | [], sep, ys, hsep, _ => by
    match sep, hsep with
    | s0 :: srest, _ =>
      show findSep (s0 :: srest) ((s0 :: srest) ++ ys) = some ([], ys)
      rw [show ((s0 :: srest) ++ ys) = s0 :: (srest ++ ys) from rfl]
      rw [findSep]
      rw [if_pos (show isPre (s0 :: srest) (s0 :: (srest ++ ys)) = true from
        isPre_self_append (s0 :: srest) ys)]
      exact congrArg some (congrArg (Prod.mk []) (List.drop_left (s0 :: srest) ys))
  | x :: xs', sep, ys, hsep, h => by
    have hx : isPre sep ((x :: xs') ++ (sep ++ ys)) = false :=
      h (x :: xs') ⟨[], rfl⟩ (by simp)
    rw [show ((x :: xs') ++ (sep ++ ys)) = x :: (xs' ++ (sep ++ ys)) from rfl] at hx ⊢
    rw [findSep, if_neg (by simp [hx])]
    rw [findSep_marker xs' hsep
      (fun t ⟨u, hu⟩ ht => h t ⟨x :: u, by simp [← hu]⟩ ht)]
    rfl

lemma isPre_d3_cons3 (a b c : Char) (z : Str) :
    isPre (S "---") (a :: b :: c :: z) =
      (decide ('-' = a) && (decide ('-' = b) && decide ('-' = c))) := by
  by_cases ha : '-' = a <;> by_cases hb : '-' = b <;> by_cases hc : '-' = c <;>
    simp [S, isPre, ha, hb, hc]

lemma isPre_d3_append_cons {t ys : Str} {c : Char} (hc : c ≠ '-') :
    isPre (S "---") (t ++ c :: ys) = isPre (S "---") t := by
  have hc' : ('-' = c) = False := by simp [Ne.symm hc]
  match t with
  | [] => simp [S, isPre, hc']
  | [a] => by_cases ha : '-' = a <;> simp [S, isPre, ha, hc']
  | [a, b] =>
    by_cases ha : '-' = a <;> by_cases hb : '-' = b <;> simp [S, isPre, ha, hb, hc']
  | a :: b :: d :: t' =>
    rw [show (a :: b :: d :: t') ++ c :: ys = a :: b :: d :: (t' ++ c :: ys) from rfl]
    rw [isPre_d3_cons3, isPre_d3_cons3]

lemma occursIn_d3_append_cons {c : Char} (hc : c ≠ '-') :
    ∀ (xs : Str) (ys : Str),
      occursIn (S "---") (xs ++ c :: ys) =
        (occursIn (S "---") xs || occursIn (S "---") ys)
  | [], ys => by
    have hc' : ('-' = c) = False := by simp [Ne.symm hc]
    simp [occursIn, S, isPre, hc']
  | x :: xs', ys => by
    rw [show ((x :: xs') ++ c :: ys) = x :: (xs' ++ c :: ys) from rfl]
    rw [occursIn, occursIn_d3_append_cons hc xs' ys]
    rw [show (x :: (xs' ++ c :: ys)) = (x :: xs') ++ c :: ys from rfl]
    rw [isPre_d3_append_cons hc]
    rw [occursIn]
    simp [Bool.or_assoc]

lemma occursIn_of_append {n : Str} : ∀ {u t : Str},
    occursIn n (u ++ t) = false → occursIn n t = false
  | [], _, h => h
  | x :: u', t, h => by
    rw [show ((x :: u') ++ t) = x :: (u' ++ t) from rfl, occursIn] at h
    exact occursIn_of_append (by
      rcases Bool.or_eq_false_iff.1 h with ⟨_, h2⟩
      exact h2)

lemma getLast?_append_right {u t : Str} (h : t ≠ []) :
    (u ++ t).getLast? = t.getLast? := by
  rw [List.getLast?_append]
  match t, h with
  | c :: t', _ =>
    cases he : (c :: t').getLast? with
    | none => simp [List.getLast?_eq_none_iff] at he
    | some d => rfl

lemma marker_safe {xs ys : Str} (hocc : occursIn (S "---") xs = false)
    (hlast : xs.getLast? = some '\n') :
    ∀ t, (∃ u, u ++ t = xs) → t ≠ [] →
      isPre (S "---") (t ++ (S "---" ++ ys)) = false := by
  intro t hu ht
  rcases hu with ⟨u, hu⟩
  have hlt : t.getLast? = some '\n' := by
    rw [← hu, getLast?_append_right ht] at hlast
    exact hlast
  have hocct : occursIn (S "---") t = false := occursIn_of_append (hu ▸ hocc)
  match t, ht with
  | [a], _ =>
    have ha : a = '\n' := by simpa using hlt
    subst ha
    simp [S, isPre]
  | [a, b], _ =>
    have hb : b = '\n' := by simpa using hlt
    subst hb
    by_cases ha : '-' = a <;> simp [S, isPre, ha]
  | a :: b :: c :: t', _ =>
    rw [show ((a :: b :: c :: t') ++ (S "---" ++ ys)) =
      a :: b :: c :: (t' ++ (S "---" ++ ys)) from rfl]
    rw [isPre_d3_cons3]
    rw [occursIn, Bool.or_eq_false_iff] at hocct
    rw [isPre_d3_cons3] at hocct
    exact hocct.1

lemma stripEndR_eq_self_of_getLast {p : Char → Bool} {l : Str} {d : Char}
    (h : l.getLast? = some d) (hd : p d = false) : stripEndR p l = l := by
  unfold stripEndR
  have hrev : l.reverse.head? = some d := by rw [List.head?_reverse]; exact h
  match hr : l.reverse with
  | [] => simp [hr] at hrev
  | c :: r =>
    rw [hr] at hrev
    have : c = d := by simpa using hrev
    subst this
    rw [List.dropWhile_cons_of_neg (by simp [hd])]
    rw [← hr, List.reverse_reverse]

lemma stripEndR_concat_pos {p : Char → Bool} {c : Char} (hp : p c = true)
    (l : Str) : stripEndR p (l ++ [c]) = stripEndR p l := by
  unfold stripEndR
  rw [List.reverse_append]
  simp [List.dropWhile_cons_of_pos, hp]

lemma stripEndR_fixed_getLast {p : Char → Bool} {t : Str}
    (h : stripEndR p t = t) (hne : t ≠ []) :
    ∃ d, t.getLast? = some d ∧ p d = false := by
  match hr : t.reverse with
  | [] =>
    exact absurd (by simpa using congrArg List.reverse hr) hne
  | c :: r =>
    refine ⟨c, ?_, ?_⟩
    · rw [← List.head?_reverse, hr]; rfl
    · by_contra hpc
      have hpc' : p c = true := by simpa using hpc
      have hlen : (stripEndR p t).length < t.length := by
        unfold stripEndR
        rw [hr, List.dropWhile_cons_of_pos hpc']
        have := dropWhile_length_le p r
        have hrl : r.length + 1 = t.length := by
          have := congrArg List.length hr
          simpa [Nat.add_comm] using this.symm
        simp only [List.length_reverse]
        omega
      rw [h] at hlen
      omega

lemma stripEndR_append_right {p : Char → Bool} {t : Str}
    (h : stripEndR p t = t) (hne : t ≠ []) (a : Str) :
    stripEndR p (a ++ t) = a ++ t := by
  rcases stripEndR_fixed_getLast h hne with ⟨d, hd, hpd⟩
  exact stripEndR_eq_self_of_getLast (by rw [getLast?_append_right hne]; exact hd) hpd

lemma dropWhile_cons_false {p : Char → Bool} {c : Char} (hc : p c = false)
    (l : Str) : (c :: l).dropWhile p = c :: l := by
  simp [List.dropWhile_cons_of_neg, hc]

lemma splitOnP_of_none {p : Char → Bool} : ∀ {a : Str},
    (∀ x ∈ a, p x = false) → splitOnP p a = [a]
  | [], _ => rfl
  | c :: cs, h => by
    rw [splitOnP, if_neg (by simp [h c (List.mem_cons_self _ _)])]
    rw [splitOnP_of_none (fun x hx => h x (List.mem_cons_of_mem _ hx))]

lemma splitOnP_append_cons {p : Char → Bool} {c : Char} (hc : p c = true) :
    ∀ {a : Str} (b : Str), (∀ x ∈ a, p x = false) →
      splitOnP p (a ++ c :: b) = a :: splitOnP p b
  | [], b, _ => by
    rw [List.nil_append, splitOnP, if_pos hc]
  | x :: a', b, h => by
    rw [show ((x :: a') ++ c :: b) = x :: (a' ++ c :: b) from rfl]
    rw [splitOnP, if_neg (by simp [h x (List.mem_cons_self _ _)])]
    rw [splitOnP_append_cons hc b (fun y hy => h y (List.mem_cons_of_mem _ hy))]

/-- Well-formedness of a header field for the round trip: nonempty, no
newline, no `---`, and no surrounding whitespace. -/
def wfField (s : Str) : Prop :=
  s ≠ [] ∧ occursIn (S "---") s = false ∧ '\n' ∉ s ∧
  s.dropWhile isPySpace = s ∧ stripEndR isPySpace s = s

/-- A scalar field must additionally not be wrapped in double quotes
(`read_entry` would strip them). -/
def wfScalar (s : Str) : Prop := wfField s ∧ startsEndsQuote s = false

instance (s : Str) : Decidable (wfField s) := by
  unfold wfField; exact inferInstance

instance (s : Str) : Decidable (wfScalar s) := by
  unfold wfScalar; exact inferInstance

lemma pyPartitionColon_append {a : Str} (b : Str) (h : ':' ∉ a) :
    pyPartitionColon (a ++ ':' :: b) = (a, b) := by
  induction a with
  | nil => rw [List.nil_append, pyPartitionColon, if_pos rfl]
  | cons c a' ih =>
    rw [show ((c :: a') ++ ':' :: b) = c :: (a' ++ ':' :: b) from rfl]
    rw [pyPartitionColon,
      if_neg (fun hc => h (by rw [hc]; exact List.mem_cons_self _ _)),
      ih (fun hm => h (List.mem_cons_of_mem _ hm))]

lemma startsEndsQuote_wrap (s : Str) :
    startsEndsQuote ('"' :: (s ++ S "\"")) = true := by
  unfold startsEndsQuote
  have h1 : isPre ['"'] ('"' :: (s ++ S "\"")) = true := by simp [isPre]
  have h2 : ('"' :: (s ++ S "\"")).reverse = '"' :: (s.reverse ++ ['"']) := by
    rw [show ('"' :: (s ++ S "\"")) = ('"' :: s) ++ ['"'] from rfl]
    rw [List.reverse_append, List.reverse_cons]
    simp
  rw [h1, h2]
  simp [isPre]

lemma pyStripR_append_right {t : Str} (h : stripEndR isPySpace t = t)
    (hne : t ≠ []) (a : Str) : pyStripR (a ++ t) = a ++ t :=
  stripEndR_append_right h hne a

lemma pyStrip_of_fixed {t : Str} (h1 : t.dropWhile isPySpace = t)
    (h2 : stripEndR isPySpace t = t) : pyStrip t = t := by
  unfold pyStrip stripEnds
  rw [h1, h2]

lemma contains_colon_of_mem {l : Str} (h : (':' : Char) ∈ l) :
    l.contains ':' = true :=
  List.elem_eq_true_of_mem h

/-- Processing the title line. -/
lemma processLine_title (m : List (Str × MVal)) (l : List Str) (summary : Str) :
    processLine ⟨m, none, l⟩ (S "title: \"" ++ (summary ++ S "\"")) =
      ⟨setMeta m (S "title") (MVal.str summary), none, l⟩ := by
  have hqnil : S "\"" ≠ [] := by decide
  have hline : pyStripR (S "title: \"" ++ (summary ++ S "\"")) =
      S "title: \"" ++ (summary ++ S "\"") := by
    apply stripEndR_eq_self_of_getLast (d := '"')
    · rw [getLast?_append_right (fun hh => hqnil (List.append_eq_nil.1 hh).2)]
      exact List.getLast?_concat summary
    · decide
  have hpre : isPre (S "  - ") (S "title: \"" ++ (summary ++ S "\"")) = false := by
    rw [isPre_append_of_length_le _ (by decide)]
    decide
  have hsp : isPre (S " ") (S "title: \"" ++ (summary ++ S "\"")) = false := by
    rw [isPre_append_of_length_le _ (by decide)]
    decide
  have hcol : (S "title: \"" ++ (summary ++ S "\"")).contains ':' = true :=
    contains_colon_of_mem (List.mem_append_left _ (by decide))
  have hpart : pyPartitionColon (S "title: \"" ++ (summary ++ S "\"")) =
      (S "title", S " \"" ++ (summary ++ S "\"")) :=
    pyPartitionColon_append (a := S "title") (S " \"" ++ (summary ++ S "\""))
      (by decide)
  have hval : pyStrip (S " \"" ++ (summary ++ S "\"")) = '"' :: (summary ++ S "\"") := by
    unfold pyStrip stripEnds
    rw [show (S " \"" ++ (summary ++ S "\"")) =
      ' ' :: ('"' :: (summary ++ S "\"")) from rfl]
    rw [List.dropWhile_cons_of_pos (by decide), List.dropWhile_cons_of_neg (by decide)]
    apply stripEndR_eq_self_of_getLast (d := '"')
    · show ('"' :: (summary ++ S "\"")).getLast? = some '"'
      rw [show ('"' :: (summary ++ S "\"")) = ('"' :: summary) ++ ['"'] from rfl]
      exact List.getLast?_concat _
    · decide
  have hquote : stripQuotes ('"' :: (summary ++ S "\"")) = summary := by
    unfold stripQuotes
    rw [if_pos (startsEndsQuote_wrap summary)]
    rw [show ('"' :: (summary ++ S "\"")).drop 1 = summary ++ S "\"" from rfl]
    exact List.dropLast_concat
  have hkey : pyStrip (S "title") = S "title" := by decide
  unfold processLine
  simp [hline, hpre, hcol, hsp, hpart, hval, hquote, hkey, saveList]
  intro hc _ _
  exact absurd (by decide) hc

/-- Processing a plain scalar line `key: field`. -/
lemma processLine_scalar (m : List (Str × MVal)) (l : List Str) (key field : Str)
    (hk1 : 4 ≤ key.length) (hk2 : isPre (S "  - ") key = false)
    (hk3 : isPre (S " ") key = false) (hk4 : ':' ∉ key) (hk5 : pyStrip key = key)
    (hf : wfField field) (hq : startsEndsQuote field = false) :
    processLine ⟨m, none, l⟩ (key ++ (S ": " ++ field)) =
      ⟨setMeta m key (MVal.str field), none, l⟩ := by
  obtain ⟨hne, _, _, hdw, hsr⟩ := hf
  have hline : pyStripR (key ++ (S ": " ++ field)) = key ++ (S ": " ++ field) := by
    have := pyStripR_append_right hsr hne (key ++ S ": ")
    simpa [List.append_assoc] using this
  have hpre : isPre (S "  - ") (key ++ (S ": " ++ field)) = false := by
    rw [isPre_append_of_length_le _ (le_trans (by decide) hk1)]
    exact hk2
  have hsp : isPre (S " ") (key ++ (S ": " ++ field)) = false := by
    rw [isPre_append_of_length_le _ (le_trans (by decide) hk1)]
    exact hk3
  have hcol : (key ++ (S ": " ++ field)).contains ':' = true :=
    contains_colon_of_mem (List.mem_append_right _ (List.mem_cons_self _ _))
  have hpart : pyPartitionColon (key ++ (S ": " ++ field)) = (key, ' ' :: field) :=
    pyPartitionColon_append (' ' :: field) hk4
  have hval : pyStrip (' ' :: field) = field := by
    unfold pyStrip stripEnds
    rw [List.dropWhile_cons_of_pos (by decide), hdw, hsr]
  unfold processLine
  simp [hline, hpre, hcol, hsp, hpart, hval, hk5, hne, hq, stripQuotes, saveList]
  intro _ hc _
  exact absurd (by decide) hc

/-- Processing the bare `tags:` line. -/
lemma processLine_tags (m : List (Str × MVal)) (l : List Str) :
    processLine ⟨m, none, l⟩ (S "tags:") = ⟨m, some (S "tags"), l⟩ := rfl

/-- Processing a `  - tag` line while a list is open. -/
lemma processLine_tagline (m : List (Str × MVal)) (k : Str) (l : List Str)
    {t : Str} (hf : wfField t) :
    processLine ⟨m, some k, l⟩ (S "  - " ++ t) = ⟨m, some k, l ++ [t]⟩ := by
  obtain ⟨hne, _, _, hdw, hsr⟩ := hf
  have hline : pyStripR (S "  - " ++ t) = S "  - " ++ t :=
    pyStripR_append_right hsr hne _
  unfold processLine
  rw [hline, if_pos (isPre_self_append (S "  - ") t)]
  have hdrop : (S "  - " ++ t).drop 4 = t := List.drop_left (S "  - ") t
  rw [hdrop, pyStrip_of_fixed hdw hsr]

/-- Folding the tag lines extends the open list with the tags in order. -/
lemma foldl_taglines (m : List (Str × MVal)) (k : Str) :
    ∀ (tags : List Str) (l : List Str), (∀ t ∈ tags, wfField t) →
      (tags.map (fun t => S "  - " ++ t)).foldl processLine ⟨m, some k, l⟩ =
        ⟨m, some k, l ++ tags⟩
  | [], l, _ => by simp
  | t :: rest, l, h => by
    rw [List.map_cons, List.foldl_cons]
    rw [processLine_tagline m k l (h t (List.mem_cons_self _ _))]
    rw [foldl_taglines m k rest (l ++ [t]) (fun x hx => h x (List.mem_cons_of_mem _ hx))]
    simp

lemma tagsYaml_ne_nil : ∀ {tags : List Str}, tags ≠ [] → tagsYaml tags ≠ []
  | [], h => absurd rfl h
  | [_], _ => fun hh =>
    (by decide : S "  - " ≠ []) (List.append_eq_nil.1 hh).1
  | _ :: _ :: _, _ => fun hh =>
    List.cons_ne_nil '\n' _ (List.append_eq_nil.1 hh).2

lemma stripEndR_tagsYaml : ∀ {tags : List Str}, (∀ t ∈ tags, wfField t) →
    tags ≠ [] → stripEndR isPySpace (tagsYaml tags) = tagsYaml tags
  | [t], h, _ => by
    obtain ⟨hne, _, _, _, hsr⟩ := h t (List.mem_cons_self _ _)
    exact pyStripR_append_right hsr hne _
  | t :: t' :: r, h, _ => by
    have ih := @stripEndR_tagsYaml (t' :: r)
      (fun x hx => h x (List.mem_cons_of_mem _ hx)) (by simp)
    have hne2 : tagsYaml (t' :: r) ≠ [] := tagsYaml_ne_nil (by simp)
    have := stripEndR_append_right ih hne2 (S "  - " ++ t ++ ['\n'])
    show stripEndR isPySpace (S "  - " ++ t ++ '\n' :: tagsYaml (t' :: r)) = _
    simpa [List.append_assoc] using this

lemma noNl_tagline {t : Str} (h : '\n' ∉ t) :
    ∀ x ∈ S "  - " ++ t, decide (x = '\n') = false := by
  intro x hx
  rcases List.mem_append.1 hx with hx | hx
  · rw [show S "  - " = [' ', ' ', '-', ' '] from rfl] at hx
    simp only [List.mem_cons, List.not_mem_nil, or_false] at hx
    rcases hx with rfl | rfl | rfl | rfl <;> decide
  · exact decide_eq_false (fun heq => h (heq ▸ hx))

lemma occursIn_tagline {t : Str} (h : occursIn (S "---") t = false) :
    occursIn (S "---") (S "  - " ++ t) = false := by
  have hca := occursIn_d3_append_cons (c := ' ') (by decide) (S "  -") t
  rw [show (S "  - " ++ t) = (S "  -" ++ ' ' :: t) from rfl, hca]
  simp [h, (by decide : occursIn (S "---") (S "  -") = false)]

lemma occursIn_tagsYaml : ∀ {tags : List Str},
    (∀ t ∈ tags, occursIn (S "---") t = false) →
    occursIn (S "---") (tagsYaml tags) = false
  | [], _ => by decide
  | [t], h => occursIn_tagline (h t (List.mem_cons_self _ _))
  | t :: t' :: r, h => by
    show occursIn (S "---") ((S "  - " ++ t) ++ '\n' :: tagsYaml (t' :: r)) = false
    rw [occursIn_d3_append_cons (by decide) _ _]
    have h1 := occursIn_tagline (h t (List.mem_cons_self _ _))
    have h2 := @occursIn_tagsYaml (t' :: r)
      (fun x hx => h x (List.mem_cons_of_mem _ hx))
    simp [h1, h2]

lemma splitNl_tagsYaml : ∀ {tags : List Str}, (∀ t ∈ tags, '\n' ∉ t) →
    tags ≠ [] →
    splitOnP (fun c => c = '\n') (tagsYaml tags) =
      tags.map (fun t => S "  - " ++ t)
  | [t], h, _ => by
    show splitOnP _ (S "  - " ++ t) = [S "  - " ++ t]
    exact splitOnP_of_none (noNl_tagline (h t (List.mem_cons_self _ _)))
  | t :: t' :: r, h, _ => by
    show splitOnP _ ((S "  - " ++ t) ++ '\n' :: tagsYaml (t' :: r)) = _
    rw [splitOnP_append_cons (by decide) _
      (noNl_tagline (h t (List.mem_cons_self _ _)))]
    rw [splitNl_tagsYaml (fun x hx => h x (List.mem_cons_of_mem _ hx)) (by simp)]
    rfl

lemma noNl_of_not_mem {a : Str} (h : '\n' ∉ a) :
    ∀ x ∈ a, decide (x = '\n') = false :=
  fun _ hx => decide_eq_false (fun he => h (he ▸ hx))

lemma noNl_append {a b : Str} (ha : ∀ x ∈ a, decide (x = '\n') = false)
    (hb : ∀ x ∈ b, decide (x = '\n') = false) :
    ∀ x ∈ a ++ b, decide (x = '\n') = false := by
  intro x hx
  rcases List.mem_append.1 hx with hx | hx
  · exact ha x hx
  · exact hb x hx

lemma append_cons_ne_nil {a b : Str} {c : Char} : a ++ c :: b ≠ [] :=
  fun h => List.cons_ne_nil c b (List.append_eq_nil.1 h).2

/-- C4, amended.  The journal round trip holds for well-formed headers:
scalar fields (author, decay, timestamp) nonempty, free of newlines and
`---`, with no surrounding whitespace and not quote-wrapped; summary free
of newlines and `---`; at least one tag, each tag a well-formed field.
`read_entry` then recovers title = summary, author, created_at, decay and
the tags in order, and the body equals the content stripped of surrounding
whitespace. -/
theorem journal_round_trip (author summary content decay ts : Str)
    (tags : List Str)
    (hau : wfScalar author) (hdec : wfScalar decay) (htsc : wfScalar ts)
    (hsocc : occursIn (S "---") summary = false) (hsnl : '\n' ∉ summary)
    (htags : tags ≠ []) (htag : ∀ t ∈ tags, wfField t) :
    read_entry (write_entry_content author tags summary content decay ts) =
      ([(S "title", MVal.str summary), (S "author", MVal.str author),
        (S "created_at", MVal.str ts), (S "relevance_decay", MVal.str decay),
        (S "tags", MVal.list tags)], pyStrip content) := by
  obtain ⟨⟨hane, haocc, hanl, hadw, hasr⟩, haq⟩ := hau
  obtain ⟨⟨hdne, hdocc, hdnl, hddw, hdsr⟩, hdq⟩ := hdec
  obtain ⟨⟨htne, htocc, htnl, htdw, htsr⟩, htq⟩ := htsc
  set X : Str := (S "title: \"" ++ (summary ++ S "\"")) ++
    ('\n' :: (S "author: " ++ author ++
      ('\n' :: (S "created_at: " ++ ts ++
        ('\n' :: (S "relevance_decay: " ++ decay ++
          ('\n' :: (S "tags:" ++ ('\n' :: tagsYaml tags))))))))) with hXdef
  -- The on-disk text, reassociated around the two fences.
  have hfull : write_entry_content author tags summary content decay ts =
      S "---" ++ (('\n' :: (X ++ ['\n'])) ++
        (S "---" ++ ('\n' :: ('\n' :: content)))) := by
    rw [hXdef]
    simp only [write_entry_content, create_frontmatter, List.append_assoc,
      List.cons_append, List.nil_append]
    rfl
  -- No `---` occurs strictly inside the header block.
  have hY : occursIn (S "---") (tagsYaml tags) = false :=
    occursIn_tagsYaml (fun t ht => (htag t ht).2.1)
  have hoccX : occursIn (S "---") X = false := by
    rw [hXdef]
    rw [occursIn_d3_append_cons (by decide)]
    rw [show S "title: \"" ++ (summary ++ S "\"") =
      S "title: " ++ '"' :: (summary ++ S "\"") from rfl]
    rw [occursIn_d3_append_cons (by decide)]
    rw [show summary ++ S "\"" = summary ++ '"' :: ([] : Str) from rfl]
    rw [occursIn_d3_append_cons (by decide)]
    rw [occursIn_d3_append_cons (by decide)]
    rw [show S "author: " ++ author = S "author:" ++ ' ' :: author from rfl]
    rw [occursIn_d3_append_cons (by decide)]
    rw [occursIn_d3_append_cons (by decide)]
    rw [show S "created_at: " ++ ts = S "created_at:" ++ ' ' :: ts from rfl]
    rw [occursIn_d3_append_cons (by decide)]
    rw [occursIn_d3_append_cons (by decide)]
    rw [show S "relevance_decay: " ++ decay =
      S "relevance_decay:" ++ ' ' :: decay from rfl]
    rw [occursIn_d3_append_cons (by decide)]
    rw [occursIn_d3_append_cons (by decide)]
    simp [hsocc, haocc, htocc, hdocc, hY,
      (by decide : occursIn (S "---") (S "title: ") = false),
      (by decide : occursIn (S "---") (S "author:") = false),
      (by decide : occursIn (S "---") (S "created_at:") = false),
      (by decide : occursIn (S "---") (S "relevance_decay:") = false),
      (by decide : occursIn (S "---") (S "tags:") = false),
      (by decide : occursIn (S "---") ([] : Str) = false)]
  -- The header block ends with a non-space character (the last tag's last).
  obtain ⟨d, hYlast, hYd⟩ :=
    stripEndR_fixed_getLast (stripEndR_tagsYaml htag htags) (tagsYaml_ne_nil htags)
  have hXlast : X.getLast? = some d := by
    rw [hXdef]
    rw [getLast?_append_right (List.cons_ne_nil _ _)]
    rw [show ('\n' : Char) :: (S "author: " ++ author ++
        ('\n' :: (S "created_at: " ++ ts ++
          ('\n' :: (S "relevance_decay: " ++ decay ++
            ('\n' :: (S "tags:" ++ ('\n' :: tagsYaml tags)))))))) =
      ['\n'] ++ (S "author: " ++ author ++
        ('\n' :: (S "created_at: " ++ ts ++
          ('\n' :: (S "relevance_decay: " ++ decay ++
            ('\n' :: (S "tags:" ++ ('\n' :: tagsYaml tags)))))))) from rfl]
    rw [getLast?_append_right append_cons_ne_nil]
    rw [getLast?_append_right (List.cons_ne_nil _ _)]
    rw [show ('\n' : Char) :: (S "created_at: " ++ ts ++
        ('\n' :: (S "relevance_decay: " ++ decay ++
          ('\n' :: (S "tags:" ++ ('\n' :: tagsYaml tags)))))) =
      ['\n'] ++ (S "created_at: " ++ ts ++
        ('\n' :: (S "relevance_decay: " ++ decay ++
          ('\n' :: (S "tags:" ++ ('\n' :: tagsYaml tags)))))) from rfl]
    rw [getLast?_append_right append_cons_ne_nil]
    rw [getLast?_append_right (List.cons_ne_nil _ _)]
    rw [show ('\n' : Char) :: (S "relevance_decay: " ++ decay ++
        ('\n' :: (S "tags:" ++ ('\n' :: tagsYaml tags)))) =
      ['\n'] ++ (S "relevance_decay: " ++ decay ++
        ('\n' :: (S "tags:" ++ ('\n' :: tagsYaml tags)))) from rfl]
    rw [getLast?_append_right append_cons_ne_nil]
    rw [getLast?_append_right (List.cons_ne_nil _ _)]
    rw [show ('\n' : Char) :: (S "tags:" ++ ('\n' :: tagsYaml tags)) =
      ['\n'] ++ (S "tags:" ++ ('\n' :: tagsYaml tags)) from rfl]
    rw [getLast?_append_right append_cons_ne_nil]
    rw [getLast?_append_right (List.cons_ne_nil _ _)]
    rw [show ('\n' : Char) :: tagsYaml tags = ['\n'] ++ tagsYaml tags from rfl]
    rw [getLast?_append_right (tagsYaml_ne_nil htags)]
    exact hYlast
  have hsrX : stripEndR isPySpace X = X :=
    stripEndR_eq_self_of_getLast hXlast hYd
  -- Stripping the block between the fences yields exactly the header lines.
  have hdwX : (X ++ ['\n']).dropWhile isPySpace = X ++ ['\n'] := by
    rw [hXdef]
    exact dropWhile_cons_false (by decide) _
  have hinner : pyStrip ('\n' :: (X ++ ['\n'])) = X := by
    unfold pyStrip stripEnds
    rw [List.dropWhile_cons_of_pos (by decide), hdwX]
    rw [stripEndR_concat_pos (by decide) X]
    exact hsrX
  -- The line split of the header block.
  have hnoNlL1 : ∀ x ∈ S "title: \"" ++ (summary ++ S "\""),
      decide (x = '\n') = false :=
    noNl_append (by decide) (noNl_append (noNl_of_not_mem hsnl) (by decide))
  have hsplitX : splitOnP (fun c => c = '\n') X =
      [S "title: \"" ++ (summary ++ S "\""), S "author: " ++ author,
        S "created_at: " ++ ts, S "relevance_decay: " ++ decay, S "tags:"] ++
      tags.map (fun t => S "  - " ++ t) := by
    rw [hXdef]
    rw [splitOnP_append_cons (by decide) _ hnoNlL1]
    rw [splitOnP_append_cons (by decide) _
      (noNl_append (by decide) (noNl_of_not_mem hanl))]
    rw [splitOnP_append_cons (by decide) _
      (noNl_append (by decide) (noNl_of_not_mem htnl))]
    rw [splitOnP_append_cons (by decide) _
      (noNl_append (by decide) (noNl_of_not_mem hdnl))]
    rw [splitOnP_append_cons (by decide) _ (by decide)]
    rw [splitNl_tagsYaml (fun t ht => (htag t ht).2.2.1) htags]
    rfl
  -- Folding the parser over the header lines.
  have hparse : parse_frontmatter X =
      [(S "title", MVal.str summary), (S "author", MVal.str author),
        (S "created_at", MVal.str ts), (S "relevance_decay", MVal.str decay),
        (S "tags", MVal.list tags)] := by
    unfold parse_frontmatter
    rw [hsplitX]
    rw [show ([S "title: \"" ++ (summary ++ S "\""), S "author: " ++ author,
        S "created_at: " ++ ts, S "relevance_decay: " ++ decay, S "tags:"] ++
      tags.map (fun t => S "  - " ++ t)) =
      (S "title: \"" ++ (summary ++ S "\"")) :: (S "author: " ++ author) ::
        (S "created_at: " ++ ts) :: (S "relevance_decay: " ++ decay) ::
        (S "tags:") :: tags.map (fun t => S "  - " ++ t) from rfl]
    rw [List.foldl_cons, processLine_title]
    rw [show S "author: " ++ author = S "author" ++ (S ": " ++ author) from rfl]
    rw [List.foldl_cons, processLine_scalar _ _ _ _ (by decide) (by decide)
      (by decide) (by decide) (by decide) ⟨hane, haocc, hanl, hadw, hasr⟩ haq]
    rw [show S "created_at: " ++ ts = S "created_at" ++ (S ": " ++ ts) from rfl]
    rw [List.foldl_cons, processLine_scalar _ _ _ _ (by decide) (by decide)
      (by decide) (by decide) (by decide) ⟨htne, htocc, htnl, htdw, htsr⟩ htq]
    rw [show S "relevance_decay: " ++ decay =
      S "relevance_decay" ++ (S ": " ++ decay) from rfl]
    rw [List.foldl_cons, processLine_scalar _ _ _ _ (by decide) (by decide)
      (by decide) (by decide) (by decide) ⟨hdne, hdocc, hdnl, hddw, hdsr⟩ hdq]
    rw [List.foldl_cons, processLine_tags]
    rw [foldl_taglines _ _ tags [] htag]
    simp only [List.nil_append]
    rw [if_pos htags]
    rfl
  -- The two fence splits.
  have hf1 : findSep (S "---")
      (S "---" ++ (('\n' :: (X ++ ['\n'])) ++
        (S "---" ++ ('\n' :: ('\n' :: content))))) =
      some ([], ('\n' :: (X ++ ['\n'])) ++
        (S "---" ++ ('\n' :: ('\n' :: content)))) :=
    findSep_marker [] (by decide)
      (fun t ht hne => absurd (by
        rcases ht with ⟨u, hu⟩
        exact (List.append_eq_nil.1 hu).2) hne)
  have hoccInner : occursIn (S "---") ('\n' :: (X ++ ['\n'])) = false := by
    rw [show ('\n' :: (X ++ ['\n'])) = [] ++ '\n' :: (X ++ ['\n']) from rfl]
    rw [occursIn_d3_append_cons (by decide)]
    rw [show X ++ ['\n'] = X ++ '\n' :: ([] : Str) from rfl]
    rw [occursIn_d3_append_cons (by decide)]
    simp [hoccX, show occursIn (S "---") ([] : Str) = false from by decide]
  have hinnerLast : ('\n' :: (X ++ ['\n'])).getLast? = some '\n' := by
    rw [show ('\n' :: (X ++ ['\n'])) = ('\n' :: X) ++ ['\n'] from rfl]
    exact List.getLast?_concat _
  have hf2 : findSep (S "---")
      (('\n' :: (X ++ ['\n'])) ++ (S "---" ++ ('\n' :: ('\n' :: content)))) =
      some ('\n' :: (X ++ ['\n']), '\n' :: ('\n' :: content)) :=
    findSep_marker _ (by decide) (marker_safe hoccInner hinnerLast)
  have hsplit2 : pySplit2 (S "---")
      (S "---" ++ (('\n' :: (X ++ ['\n'])) ++
        (S "---" ++ ('\n' :: ('\n' :: content))))) =
      [[], '\n' :: (X ++ ['\n']), '\n' :: ('\n' :: content)] := by
    simp only [pySplit2, hf1, hf2]
  have htail : pyStrip ('\n' :: ('\n' :: content)) = pyStrip content := by
    unfold pyStrip stripEnds
    rw [List.dropWhile_cons_of_pos (by decide), List.dropWhile_cons_of_pos (by decide)]
  -- Put everything together.
  rw [hfull]
  unfold read_entry
  rw [if_pos (show isPre (S "---")
      (S "---" ++ (('\n' :: (X ++ ['\n'])) ++
        (S "---" ++ ('\n' :: ('\n' :: content))))) = true from
    isPre_self_append _ _)]
  simp only [hsplit2]
  rw [hinner, htail, hparse]

/-- Closed instance of `journal_round_trip` on a concrete entry. -/
theorem journal_round_trip_witness :
    read_entry (write_entry_content (S "alice") [S "ops", S "build"]
        (S "Quarterly sync") (S "Notes body") (S "medium")
        (S "2024-01-01T09:30:00")) =
      ([(S "title", MVal.str (S "Quarterly sync")),
        (S "author", MVal.str (S "alice")),
        (S "created_at", MVal.str (S "2024-01-01T09:30:00")),
        (S "relevance_decay", MVal.str (S "medium")),
        (S "tags", MVal.list [S "ops", S "build"])], pyStrip (S "Notes body")) :=
  journal_round_trip (S "alice") (S "Quarterly sync") (S "Notes body")
    (S "medium") (S "2024-01-01T09:30:00") [S "ops", S "build"]
    (by decide) (by decide) (by decide) (by decide) (by decide) (by decide)
    (by decide)

end FDA
